import Mathlib

/-!
Shallow embedding of the `rust_player` audio pipeline and spectrum analyzer
(`src/audio.rs`, `src/visualizer.rs`).

Modelling conventions:
* `f32`/`f64` sample values and durations are modelled as exact rationals `ℚ`;
  the decimal literals of the source become the corresponding rational literals.
* Rust's `VecDeque` is a `List`, front at the head: `push_back` appends at the
  end, `pop_front` drops the head, `drain(..)` returns the list front-to-back.
* Fallible constructors (`cpal` device lookup, `symphonia` probe/decoder,
  `rubato` resampler) are modelled by boolean success flags in an environment
  record; the functions mirror the source's early-return (`?`) control flow.
* `std::time::Instant` is a rational time stamp; `duration_since` saturates at
  zero like the Rust function.
* The FFT (`rustfft`) and `f32::sqrt` are transcendental: `update_spectrum`
  takes the raw magnitude list (the `c.norm()` outputs, which are always
  nonnegative) and the exact nonnegative square root `e` of the bass sum as
  oracle parameters; theorems that depend on the square root carry the side
  condition `e * e = bass sum ∧ 0 ≤ e`.
-/

namespace RustPlayer

/-! ## Sample-format conversion (`src/audio.rs` lines 143-172)

Each decoded packet's first channel (`buf.chan(0)`) is converted to `f32`.
Unsigned sample values are naturals, signed values are integers. -/

/-- `AudioBufferRef::U8`: `s as f32 / 128.0 - 1.0`. -/
def convert_u8 (v : ℕ) : ℚ := (v : ℚ) / 128 - 1

/-- `AudioBufferRef::U16`: `s as f32 / 32768.0` (no offset in the source). -/
def convert_u16 (v : ℕ) : ℚ := (v : ℚ) / 32768

/-- `AudioBufferRef::U24`: `s.inner() as f32 / 8388608.0` (no offset). -/
def convert_u24 (v : ℕ) : ℚ := (v : ℚ) / 8388608

/-- `AudioBufferRef::U32`: `s as f32 / 2147483648.0` (no offset). -/
def convert_u32 (v : ℕ) : ℚ := (v : ℚ) / 2147483648

/-- `AudioBufferRef::S8`: `s as f32 / 128.0`. -/
def convert_s8 (v : ℤ) : ℚ := (v : ℚ) / 128

/-- `AudioBufferRef::S16`: `s as f32 / 32768.0`. -/
def convert_s16 (v : ℤ) : ℚ := (v : ℚ) / 32768

/-- `AudioBufferRef::S24`: `s.inner() as f32 / 8388608.0`. -/
def convert_s24 (v : ℤ) : ℚ := (v : ℚ) / 8388608

/-- `AudioBufferRef::S32`: `s as f32 / 2147483648.0`. -/
def convert_s32 (v : ℤ) : ℚ := (v : ℚ) / 2147483648

/-- `AudioBufferRef::F32`: `buf.chan(0).to_vec()`, passthrough. -/
def convert_f32 (v : ℚ) : ℚ := v

/-- `AudioBufferRef::F64`: `s as f32`, narrowing (value-level identity in the
rational model). -/
def convert_f64 (v : ℚ) : ℚ := v

/-! ## AudioPlayer state (`src/audio.rs`) -/

/-- The shared playback state of `AudioPlayer` (the `cpal` host/device/config
handles carry no playback data and are omitted).  `sample_buffer` is the
`VecDeque<f32>` sample queue, front at the head of the list. -/
structure AudioPlayer where
  sample_buffer : List ℚ
  is_playing : Bool
  current_position : ℚ
  duration : ℚ
  volume : ℚ
  deriving DecidableEq, Repr

/-- Failures of `AudioPlayer::new`. -/
inductive NewError where
  | noOutputDevice
  | noSupportedConfigs
  deriving DecidableEq, Repr

/-- `AudioPlayer::new`: the device and config lookups are modelled by success
flags.  On success every shared cell starts empty/zero/false and the volume
field starts at `0.7`. -/
def AudioPlayer.new (hasDevice hasConfig : Bool) : Except NewError AudioPlayer :=
  if !hasDevice then .error .noOutputDevice
  else if !hasConfig then .error .noSupportedConfigs
  else .ok { sample_buffer := []
             is_playing := false
             current_position := 0
             duration := 0
             volume := 7/10 }

/-- State captured by value into the decode closure spawned by `load_file`
(`let volume = self.volume;`, line 112). -/
structure DecodeThread where
  captured_volume : ℚ
  deriving DecidableEq, Repr

/-- Environment of one `load_file` call: which fallible steps succeed, and the
codec parameters of the chosen track. `tracks` holds one flag per track,
`true` when its codec is not `CODEC_TYPE_NULL`. -/
structure LoadEnv where
  file_ok : Bool
  probe_ok : Bool
  tracks : List Bool
  decoder_ok : Bool
  sample_rate : Option ℕ
  resampler_ok : Bool
  n_frames : Option ℕ
  deriving DecidableEq, Repr

/-- Failures of `AudioPlayer::load_file`. -/
inductive LoadError where
  | openFailed
  | probeFailed
  | noSupportedTrack
  | decoderInitFailed
  | resamplerInitFailed
  deriving DecidableEq, Repr

/-- Result of a `load_file` call: the player state after the call (the source
takes `&mut self`), the decode thread spawned on success, and the error
returned on failure. -/
structure LoadResult where
  state : AudioPlayer
  spawned : Option DecodeThread
  err : Option LoadError
  deriving DecidableEq, Repr

/-- `AudioPlayer::load_file`, mirroring the source's order of operations:
open → probe → track search → decoder construction → resampler construction
(only when the native rate differs from 48000) → duration write (only when
`n_frames` is known) → thread spawn capturing `self.volume` by value.  All
error exits precede the duration write and the spawn. -/
def load_file (env : LoadEnv) (st : AudioPlayer) : LoadResult :=
  if !env.file_ok then ⟨st, none, some .openFailed⟩
  else if !env.probe_ok then ⟨st, none, some .probeFailed⟩
  else if !(env.tracks.any id) then ⟨st, none, some .noSupportedTrack⟩
  else if !env.decoder_ok then ⟨st, none, some .decoderInitFailed⟩
  else if env.sample_rate.getD 48000 ≠ 48000 ∧ !env.resampler_ok then
    ⟨st, none, some .resamplerInitFailed⟩
  else
    let st1 := match env.n_frames with
      | some n => { st with duration := (n : ℚ) / ((env.sample_rate.getD 48000 : ℕ) : ℚ) }
      | none => st
    ⟨st1, some ⟨st.volume⟩, none⟩

/-- `AudioPlayer::get_samples`: drains the whole queue front-to-back and
returns it. -/
def get_samples (st : AudioPlayer) : List ℚ × AudioPlayer :=
  (st.sample_buffer, { st with sample_buffer := [] })

/-- Rust's `f32::clamp(lo, hi)`. -/
def rustClamp (x lo hi : ℚ) : ℚ :=
  if x < lo then lo else if x > hi then hi else x

/-- `AudioPlayer::set_volume`: `self.volume = volume.clamp(0.0, 1.0)`. -/
def set_volume (st : AudioPlayer) (v : ℚ) : AudioPlayer :=
  { st with volume := rustClamp v 0 1 }

/-- Volume application inside the decode loop (lines 183-185): every sample of
the block is multiplied by the volume captured at load time. -/
def process_block (th : DecodeThread) (block : List ℚ) : List ℚ :=
  block.map (fun s => s * th.captured_volume)

/-! ## Visualizer state (`src/visualizer.rs`)

The `FftPlanner` cache and the precomputed Hann window vector of the struct
are pure inputs to the FFT, which is abstracted into the magnitude oracle of
`update_spectrum`, so neither appears in the state. -/

/-- `self.fft_size`, set to `2048` in `Visualizer::new` and never changed. -/
def fft_size : ℕ := 2048

/-- The mutable analysis state of `Visualizer`. -/
structure Visualizer where
  sample_buffer : List ℚ
  spectrum_bars : List ℚ
  beat_intensity : ℚ
  rainbow_hue : ℚ
  last_beat_time : ℚ
  deriving DecidableEq, Repr

/-- `Visualizer::new` at creation instant `t0`: empty ring, 32 zero bars,
zero beat intensity and hue, beat timer at `t0`. -/
def Visualizer.new (t0 : ℚ) : Visualizer :=
  { sample_buffer := []
    spectrum_bars := List.replicate 32 0
    beat_intensity := 0
    rainbow_hue := 0
    last_beat_time := t0 }

/-- One iteration of the `add_samples` loop: `push_back`, then `pop_front`
when the ring exceeds `fft_size` (the pushed buffer `buf ++ [s]` is written
out instead of bound to a local). -/
def pushSample (buf : List ℚ) (s : ℚ) : List ℚ :=
  if (buf ++ [s]).length > fft_size then (buf ++ [s]).tail else buf ++ [s]

/-- `Visualizer::add_samples`. -/
def add_samples (st : Visualizer) (samples : List ℚ) : Visualizer :=
  { st with sample_buffer := samples.foldl pushSample st.sample_buffer }

/-- The magnitude-normalization step of `update_spectrum` (lines 79-85):
divide every magnitude by the frame maximum, skipped when the maximum is not
positive.  `mags` are the `c.norm()` values of the first 1024 FFT bins. -/
def normalizeMags (mags : List ℚ) : List ℚ :=
  let max_magnitude := mags.foldl max 0
  if max_magnitude > 0 then mags.map (fun m => m / max_magnitude) else mags

/-- The average magnitude of bar `i` (`update_frequency_bars` body):
`start_bin = i * bin_per_bar`, `end_bin = min ((i+1) * bin_per_bar) len`
inlined; the average over `[start_bin, end_bin)`, zero when the range is
empty. -/
def barValue (mags : List ℚ) (bin_per_bar i : ℕ) : ℚ :=
  if i * bin_per_bar < min ((i + 1) * bin_per_bar) mags.length then
    ((mags.drop (i * bin_per_bar)).take (min ((i + 1) * bin_per_bar) mags.length - i * bin_per_bar)).sum
      / ((min ((i + 1) * bin_per_bar) mags.length - i * bin_per_bar : ℕ) : ℚ)
  else 0

/-- The `for (i, bar)` loop of `update_frequency_bars`: each bar becomes
`bar * 0.7 + avg_magnitude * 0.3`. -/
def smoothBars (mags : List ℚ) (bin_per_bar : ℕ) : ℕ → List ℚ → List ℚ
  | _, [] => []
  | i, b :: rest =>
      (b * (7/10) + barValue mags bin_per_bar i * (3/10)) :: smoothBars mags bin_per_bar (i + 1) rest

/-- `Visualizer::update_frequency_bars`. -/
def update_frequency_bars (mags : List ℚ) (st : Visualizer) : Visualizer :=
  { st with spectrum_bars := smoothBars mags (mags.length / st.spectrum_bars.length) 0 st.spectrum_bars }

/-- The bass sum of `detect_beat`: sum of the magnitudes over the lowest
eighth of the bins (`0..(magnitudes.len() / 8)`).  The source takes
`f32::sqrt` of this sum as the bass energy; theorems pass that square root
explicitly. -/
def bassSum (mags : List ℚ) : ℚ :=
  (mags.take (mags.length / 8)).sum

/-- `Instant::duration_since` (saturating at zero) in seconds. -/
def duration_since (now earlier : ℚ) : ℚ := max (now - earlier) 0

/-- `Visualizer::detect_beat` at instant `now`, where `e` is the exact
nonnegative square root of `bassSum mags` (the `bass_energy` of the source,
supplied as an oracle because `f32::sqrt` is not rational). -/
def detect_beat (e now : ℚ) (st : Visualizer) : Visualizer :=
  if e > 3/10 ∧ duration_since now st.last_beat_time > 1/5 then
    { st with beat_intensity := min (e - 3/10) 1, last_beat_time := now }
  else
    { st with beat_intensity := st.beat_intensity * (95/100) }

/-- Rust's `%` on floats (truncated remainder) for the nonnegative operands
occurring in `update_rainbow_hue`. -/
def rustRem (a b : ℚ) : ℚ :=
  a - b * ((if 0 ≤ a / b then ⌊a / b⌋ else ⌈a / b⌉ : ℤ) : ℚ)

/-- `Visualizer::update_rainbow_hue`. -/
def update_rainbow_hue (st : Visualizer) : Visualizer :=
  let rotation_speed := 2/100 + st.beat_intensity * (1/10)
  { st with rainbow_hue := rustRem (st.rainbow_hue + rotation_speed) 360 }

/-- `Visualizer::update_spectrum` at instant `now`.  `mags` is the magnitude
list produced by the windowed 2048-point FFT (first 1024 bins, `c.norm()`
each, hence nonnegative) and `e` the nonnegative square root of the
normalized bass sum; both are oracle inputs standing for the transcendental
computations.  The early return fires when the ring holds fewer than
`fft_size` samples. -/
def update_spectrum (mags : List ℚ) (e now : ℚ) (st : Visualizer) : Visualizer :=
  if st.sample_buffer.length < fft_size then st
  else
    let magnitudes := normalizeMags mags
    let st1 := update_frequency_bars magnitudes st
    let st2 := detect_beat e now st1
    update_rainbow_hue st2

/-! ## Derived notions used by the statements -/

/-- The last `fft_size` elements of a list (all of it when shorter): the
contents the sliding ring should hold after the whole list has been fed. -/
def lastWindow (l : List ℚ) : List ℚ :=
  l.drop (l.length - fft_size)

/-- The range invariant on the analyzer's outputs: every spectrum bar and the
beat intensity lie in `[0, 1]`. -/
def outputsInRange (st : Visualizer) : Prop :=
  (∀ b ∈ st.spectrum_bars, 0 ≤ b ∧ b ≤ 1) ∧ 0 ≤ st.beat_intensity ∧ st.beat_intensity ≤ 1

/-- One externally triggered operation on the `Visualizer`: a `add_samples`
call, or an `update_spectrum` call with its FFT-magnitude oracle. -/
inductive VisOp where
  | add (samples : List ℚ)
  | update (mags : List ℚ) (e now : ℚ)
  deriving DecidableEq, Repr

/-- Run one operation on the analyzer state. -/
def VisOp.run (st : Visualizer) : VisOp → Visualizer
  | .add s => add_samples st s
  | .update mags e now => update_spectrum mags e now st

/-- The oracle magnitudes of an `update` operation are nonnegative (they are
`Complex::norm` values in the source); `add` carries no magnitudes. -/
def VisOp.magsNonneg : VisOp → Prop
  | .add _ => True
  | .update mags _ _ => ∀ m ∈ mags, 0 ≤ m

/-! ## Concrete states used by counterexamples and witnesses -/

/-- The player state `AudioPlayer::new` returns when both `cpal` lookups
succeed. -/
def okPlayer : AudioPlayer :=
  { sample_buffer := []
    is_playing := false
    current_position := 0
    duration := 0
    volume := 7/10 }

/-- A load environment where every fallible step succeeds, the single track
has a real codec, the native rate is already 48000 and no frame count is
known. -/
def goodEnv : LoadEnv :=
  { file_ok := true
    probe_ok := true
    tracks := [true]
    decoder_ok := true
    sample_rate := some 48000
    resampler_ok := true
    n_frames := none }

/-- `goodEnv` with an unopenable file. -/
def badEnv : LoadEnv :=
  { goodEnv with file_ok := false }

/-- An analyzer state whose ring holds a full window of 2048 samples, with
zero bars, zero beat intensity, zero hue and the beat timer at instant 0. -/
def fullVis : Visualizer :=
  { sample_buffer := List.replicate 2048 0
    spectrum_bars := List.replicate 32 0
    beat_intensity := 0
    rainbow_hue := 0
    last_beat_time := 0 }

/-- A concrete 1024-bin magnitude frame: the 128 bass bins at `1/8`, the
remaining 896 bins at `1`.  Its frame maximum is `1`, so normalization keeps
it unchanged, and its normalized bass sum is `128 * 1/8 = 16 = 4 * 4`, a
rational perfect square, so `4` is the exact bass energy. -/
def cexMags : List ℚ :=
  List.replicate 128 (1/8) ++ List.replicate 896 1

/-! ## Shared lemmas -/

/-- On any error path, `load_file` returns an unchanged state and spawns no
thread; on success, the spawned thread captures the caller's volume field by
value. -/
theorem load_file_cases (env : LoadEnv) (st : AudioPlayer) :
    ((load_file env st).err.isSome → (load_file env st).state = st ∧ (load_file env st).spawned = none) ∧
    (∀ th : DecodeThread, (load_file env st).spawned = some th → th.captured_volume = st.volume) := by
  unfold load_file
  split_ifs
  · exact ⟨fun _ => ⟨rfl, rfl⟩, fun th h => by simp at h⟩
  · exact ⟨fun _ => ⟨rfl, rfl⟩, fun th h => by simp at h⟩
  · exact ⟨fun _ => ⟨rfl, rfl⟩, fun th h => by simp at h⟩
  · exact ⟨fun _ => ⟨rfl, rfl⟩, fun th h => by simp at h⟩
  · exact ⟨fun _ => ⟨rfl, rfl⟩, fun th h => by simp at h⟩
  · refine ⟨fun h => ?_, fun th h => ?_⟩
    · simp at h
    · simp at h
      rw [← h]

theorem update_rainbow_hue_sample_buffer (st : Visualizer) :
    (update_rainbow_hue st).sample_buffer = st.sample_buffer := rfl

theorem update_rainbow_hue_spectrum_bars (st : Visualizer) :
    (update_rainbow_hue st).spectrum_bars = st.spectrum_bars := rfl

theorem update_rainbow_hue_beat_intensity (st : Visualizer) :
    (update_rainbow_hue st).beat_intensity = st.beat_intensity := rfl

theorem update_rainbow_hue_last_beat_time (st : Visualizer) :
    (update_rainbow_hue st).last_beat_time = st.last_beat_time := rfl

theorem update_frequency_bars_sample_buffer (mags : List ℚ) (st : Visualizer) :
    (update_frequency_bars mags st).sample_buffer = st.sample_buffer := rfl

theorem update_frequency_bars_beat_intensity (mags : List ℚ) (st : Visualizer) :
    (update_frequency_bars mags st).beat_intensity = st.beat_intensity := rfl

theorem update_frequency_bars_last_beat_time (mags : List ℚ) (st : Visualizer) :
    (update_frequency_bars mags st).last_beat_time = st.last_beat_time := rfl

theorem update_frequency_bars_spectrum_bars (mags : List ℚ) (st : Visualizer) :
    (update_frequency_bars mags st).spectrum_bars
      = smoothBars mags (mags.length / st.spectrum_bars.length) 0 st.spectrum_bars := rfl

theorem detect_beat_sample_buffer (e now : ℚ) (st : Visualizer) :
    (detect_beat e now st).sample_buffer = st.sample_buffer := by
  rw [detect_beat]
  split_ifs <;> rfl

theorem detect_beat_spectrum_bars (e now : ℚ) (st : Visualizer) :
    (detect_beat e now st).spectrum_bars = st.spectrum_bars := by
  rw [detect_beat]
  split_ifs <;> rfl

/-- The two mutable beat fields of `detect_beat`, as conditionals. -/
theorem detect_beat_fields (e now : ℚ) (st : Visualizer) :
    ((detect_beat e now st).beat_intensity =
      if e > 3/10 ∧ duration_since now st.last_beat_time > 1/5 then min (e - 3/10) 1
      else st.beat_intensity * (95/100)) ∧
    ((detect_beat e now st).last_beat_time =
      if e > 3/10 ∧ duration_since now st.last_beat_time > 1/5 then now
      else st.last_beat_time) := by
  rw [detect_beat]
  split_ifs <;> exact ⟨rfl, rfl⟩

/-- Unfolding of `update_spectrum` when the ring holds a full window. -/
theorem update_spectrum_full (mags : List ℚ) (e now : ℚ) (st : Visualizer)
    (h : ¬ st.sample_buffer.length < fft_size) :
    update_spectrum mags e now st
      = update_rainbow_hue (detect_beat e now (update_frequency_bars (normalizeMags mags) st)) := by
  rw [update_spectrum, if_neg h]

/-- One `pushSample` on a saturated-or-shorter window slides it by one. -/
theorem pushSample_lastWindow (l : List ℚ) (a : ℚ) :
    pushSample (lastWindow l) a = lastWindow (l ++ [a]) := by
  have hpos : 0 < fft_size := by rw [fft_size]; norm_num
  rw [pushSample]
  by_cases hn : l.length < fft_size
  · have hlw : lastWindow l = l := by
      rw [lastWindow, show l.length - fft_size = 0 by omega, List.drop_zero]
    rw [hlw, if_neg (by rw [List.length_append, List.length_singleton]; omega)]
    rw [lastWindow, List.length_append, List.length_singleton,
      show l.length + 1 - fft_size = 0 by omega, List.drop_zero]
  · push_neg at hn
    have hlen : (lastWindow l).length = fft_size := by
      rw [lastWindow, List.length_drop]
      omega
    rw [if_pos (by rw [List.length_append, List.length_singleton, hlen]; omega)]
    rw [← List.drop_one, List.drop_append_of_le_length (by rw [hlen]; omega)]
    rw [lastWindow, List.drop_drop, lastWindow, List.length_append, List.length_singleton]
    rw [List.drop_append_of_le_length (by omega)]
    rw [show l.length - fft_size + 1 = l.length + 1 - fft_size by omega]

/-- Folding `pushSample` over new samples keeps the ring equal to the last
window of everything fed so far. -/
theorem foldl_pushSample_lastWindow (s : List ℚ) :
    ∀ l : List ℚ, s.foldl pushSample (lastWindow l) = lastWindow (l ++ s) := by
  induction s with
  | nil =>
      intro l
      simp [List.foldl_nil]
  | cons a s ih =>
      intro l
      rw [List.foldl_cons, pushSample_lastWindow, ih (l ++ [a]), List.append_assoc,
        List.singleton_append]

/-- Only the ring changes across a sequence of `add_samples` calls. -/
theorem foldl_add_samples_buffer (calls : List (List ℚ)) :
    ∀ st : Visualizer,
      (calls.foldl add_samples st).sample_buffer
        = calls.foldl (fun b c => c.foldl pushSample b) st.sample_buffer := by
  induction calls with
  | nil => intro st; rfl
  | cons c cs ih =>
      intro st
      rw [List.foldl_cons, List.foldl_cons, ih]
      rfl

theorem foldl_pushSample_window_calls (calls : List (List ℚ)) :
    ∀ l : List ℚ,
      calls.foldl (fun b c => c.foldl pushSample b) (lastWindow l) = lastWindow (l ++ calls.flatten) := by
  induction calls with
  | nil =>
      intro l
      simp
  | cons c cs ih =>
      intro l
      rw [List.foldl_cons, foldl_pushSample_lastWindow c l, ih (l ++ c), List.append_assoc]
      rfl

/-- `e > 0.3` iff `e² > 0.09` for nonnegative `e`: lets the beat trigger be
phrased on the bass sum itself rather than on its square root. -/
theorem sqrt_gt_threshold_iff (e : ℚ) (he0 : 0 ≤ e) : e > 3/10 ↔ e * e > 9/100 := by
  constructor
  · intro h
    nlinarith
  · intro h
    nlinarith

theorem foldl_max_ge_init (l : List ℚ) : ∀ a : ℚ, a ≤ l.foldl max a := by
  induction l with
  | nil => intro a; exact le_refl a
  | cons b t ih =>
      intro a
      rw [List.foldl_cons]
      exact le_trans (le_max_left a b) (ih (max a b))

theorem foldl_max_ge_mem (l : List ℚ) : ∀ (a x : ℚ), x ∈ l → x ≤ l.foldl max a := by
  induction l with
  | nil => intro a x hx; simp at hx
  | cons b t ih =>
      intro a x hx
      rw [List.foldl_cons]
      rcases List.mem_cons.1 hx with h | h
      · subst h
        exact le_trans (le_max_right a x) (foldl_max_ge_init t (max a x))
      · exact ih (max a b) x h

theorem normalizeMags_length (mags : List ℚ) : (normalizeMags mags).length = mags.length := by
  rw [normalizeMags]
  split_ifs <;> simp

/-- Normalization maps nonnegative magnitudes into `[0, 1]`. -/
theorem normalizeMags_bounds (mags : List ℚ) (h : ∀ m ∈ mags, 0 ≤ m) :
    ∀ m ∈ normalizeMags mags, 0 ≤ m ∧ m ≤ 1 := by
  rw [normalizeMags]
  split_ifs with hmax
  · intro m hm
    obtain ⟨x, hx, rfl⟩ := List.mem_map.1 hm
    refine ⟨div_nonneg (h x hx) (le_of_lt hmax), ?_⟩
    rw [div_le_one hmax]
    exact foldl_max_ge_mem mags 0 x hx
  · push_neg at hmax
    intro m hm
    have h1 : 0 ≤ m := h m hm
    have h2 : m ≤ 0 := le_trans (foldl_max_ge_mem mags 0 m hm) hmax
    exact ⟨h1, by linarith⟩

/-- Each bar average over magnitudes in `[0, 1]` lies in `[0, 1]`. -/
theorem barValue_bounds (mags : List ℚ) (bpb i : ℕ) (h : ∀ m ∈ mags, 0 ≤ m ∧ m ≤ 1) :
    0 ≤ barValue mags bpb i ∧ barValue mags bpb i ≤ 1 := by
  rw [barValue]
  split_ifs with hlt
  · have hmem : ∀ x ∈ (mags.drop (i * bpb)).take (min ((i + 1) * bpb) mags.length - i * bpb),
        0 ≤ x ∧ x ≤ 1 :=
      fun x hx => h x (List.mem_of_mem_drop (List.mem_of_mem_take hx))
    have hlen : ((mags.drop (i * bpb)).take (min ((i + 1) * bpb) mags.length - i * bpb)).length
        = min ((i + 1) * bpb) mags.length - i * bpb := by
      simp only [List.length_take, List.length_drop]
      omega
    have hk : (0 : ℚ) < ((min ((i + 1) * bpb) mags.length - i * bpb : ℕ) : ℚ) := by
      have : 0 < min ((i + 1) * bpb) mags.length - i * bpb := by omega
      exact_mod_cast this
    have hsum0 : 0 ≤ ((mags.drop (i * bpb)).take (min ((i + 1) * bpb) mags.length - i * bpb)).sum :=
      List.sum_nonneg (fun x hx => (hmem x hx).1)
    have hsum1 : ((mags.drop (i * bpb)).take (min ((i + 1) * bpb) mags.length - i * bpb)).sum
        ≤ ((min ((i + 1) * bpb) mags.length - i * bpb : ℕ) : ℚ) := by
      have := List.sum_le_card_nsmul
        ((mags.drop (i * bpb)).take (min ((i + 1) * bpb) mags.length - i * bpb)) 1
        (fun x hx => (hmem x hx).2)
      rw [hlen] at this
      simpa using this
    constructor
    · exact div_nonneg hsum0 (le_of_lt hk)
    · rw [div_le_one hk]
      exact hsum1
  · exact ⟨le_refl 0, by norm_num⟩

/-- Smoothing `0.7 * previous + 0.3 * new` keeps every bar in `[0, 1]`. -/
theorem smoothBars_bounds (mags : List ℚ) (bpb : ℕ) (hm : ∀ m ∈ mags, 0 ≤ m ∧ m ≤ 1) :
    ∀ (bars : List ℚ) (i : ℕ), (∀ b ∈ bars, 0 ≤ b ∧ b ≤ 1) →
      ∀ b ∈ smoothBars mags bpb i bars, 0 ≤ b ∧ b ≤ 1 := by
  intro bars
  induction bars with
  | nil =>
      intro i _ b hb
      simp [smoothBars] at hb
  | cons hd tl ih =>
      intro i hbars b hb
      rw [smoothBars] at hb
      rcases List.mem_cons.1 hb with h | h
      · subst h
        have hhd := hbars hd (List.mem_cons_self hd tl)
        have hv := barValue_bounds mags bpb i hm
        constructor
        · nlinarith [hhd.1, hv.1]
        · nlinarith [hhd.2, hv.2]
      · exact ih (i + 1) (fun x hx => hbars x (List.mem_cons_of_mem hd hx)) b h

/-- `detect_beat` keeps the beat intensity in `[0, 1]`. -/
theorem detect_beat_intensity_bounds (e now : ℚ) (st : Visualizer)
    (h0 : 0 ≤ st.beat_intensity) (h1 : st.beat_intensity ≤ 1) :
    0 ≤ (detect_beat e now st).beat_intensity ∧ (detect_beat e now st).beat_intensity ≤ 1 := by
  rw [detect_beat]
  split_ifs with hc
  · constructor
    · exact le_min (by linarith [hc.1]) (by norm_num)
    · exact min_le_right _ _
  · constructor
    · nlinarith
    · nlinarith

/-- `update_spectrum` preserves the `[0, 1]` range of bars and beat intensity
whenever its oracle magnitudes are nonnegative. -/
theorem update_spectrum_preserves_range (mags : List ℚ) (e now : ℚ) (st : Visualizer)
    (hm : ∀ m ∈ mags, 0 ≤ m) (h : outputsInRange st) :
    outputsInRange (update_spectrum mags e now st) := by
  by_cases hlen : st.sample_buffer.length < fft_size
  · rw [update_spectrum, if_pos hlen]
    exact h
  · rw [update_spectrum_full mags e now st hlen]
    obtain ⟨hbars, hb0, hb1⟩ := h
    constructor
    · intro b hb
      rw [update_rainbow_hue_spectrum_bars, detect_beat_spectrum_bars,
        update_frequency_bars_spectrum_bars] at hb
      exact smoothBars_bounds (normalizeMags mags) _ (normalizeMags_bounds mags hm)
        st.spectrum_bars 0 hbars b hb
    · rw [update_rainbow_hue_beat_intensity]
      exact detect_beat_intensity_bounds e now (update_frequency_bars (normalizeMags mags) st)
        hb0 hb1

/-- `add_samples` touches only the ring, so it preserves the output ranges. -/
theorem add_samples_preserves_range (st : Visualizer) (s : List ℚ)
    (h : outputsInRange st) : outputsInRange (add_samples st s) := h

/-- The freshly constructed analyzer satisfies the range invariant. -/
theorem new_outputsInRange (t0 : ℚ) : outputsInRange (Visualizer.new t0) := by
  refine ⟨?_, le_refl 0, show (0 : ℚ) ≤ 1 by norm_num⟩
  intro b hb
  rw [Visualizer.new] at hb
  simp only [List.mem_replicate] at hb
  rw [hb.2]
  exact ⟨le_refl 0, by norm_num⟩

theorem foldl_max_replicate (x : ℚ) : ∀ (n : ℕ) (a : ℚ),
    List.foldl max a (List.replicate (n + 1) x) = max a x := by
  intro n
  induction n with
  | zero => intro a; rfl
  | succ k ih =>
      intro a
      rw [List.replicate_succ, List.foldl_cons, ih]
      rw [max_assoc, max_self]

theorem cexMags_max : cexMags.foldl max 0 = 1 := by
  rw [cexMags, List.foldl_append, foldl_max_replicate, foldl_max_replicate]
  rw [max_eq_right (by norm_num : (0:ℚ) ≤ 1/8), max_eq_right (by norm_num : (1:ℚ)/8 ≤ 1)]

theorem normalizeMags_cexMags : normalizeMags cexMags = cexMags := by
  rw [normalizeMags, cexMags_max]
  rw [if_pos (by norm_num : (1:ℚ) > 0)]
  rw [show (fun m : ℚ => m / 1) = fun m : ℚ => m from funext fun m => div_one m]
  exact List.map_id' cexMags

theorem cexMags_length : cexMags.length = 1024 := by
  rw [cexMags, List.length_append, List.length_replicate, List.length_replicate]

theorem bassSum_cexMags : bassSum (normalizeMags cexMags) = 16 := by
  rw [normalizeMags_cexMags, bassSum, cexMags_length]
  rw [show (1024 : ℕ) / 8 = 128 from rfl, cexMags]
  rw [List.take_left' (List.length_replicate 128 ((1:ℚ)/8)), List.sum_replicate]
  norm_num

theorem fullVis_not_short : ¬ fullVis.sample_buffer.length < fft_size := by
  show ¬ (List.replicate 2048 (0:ℚ)).length < fft_size
  rw [List.length_replicate, fft_size]
  omega

/-! ## Claim theorems -/

/-- **C1** (code_bug evaluation): the decode closure's sample-format match
applies the claimed formula `v/2^(N-1) - 1` to unsigned 8-bit input only; for
unsigned 16/24/32-bit input it computes `v/2^(N-1)` with no `- 1` offset, so
`U16` value `0` maps to `0` where the claimed formula gives `-1`, and the
maximal `U16`/`U24`/`U32` values map above `1`, outside the promised
`[-1, 1]` range.  Signed and float formats follow the claimed formulas. -/
theorem unsigned_conversion_divergence :
    convert_u16 0 = 0 ∧ (0 : ℚ) / 2 ^ 15 - 1 = -1 ∧ convert_u16 0 ≠ (0 : ℚ) / 2 ^ 15 - 1 ∧
    1 < convert_u16 65535 ∧ 1 < convert_u24 16777215 ∧ 1 < convert_u32 4294967295 ∧
    convert_u8 0 = -1 ∧ convert_u8 128 = 0 ∧ convert_u8 255 = 127 / 128 ∧
    convert_s8 (-128) = -1 ∧ convert_s16 32767 = 32767 / 32768 ∧
    convert_s24 (-8388608) = -1 ∧ convert_s32 2147483647 = 2147483647 / 2147483648 ∧
    convert_f32 (1/2) = 1/2 ∧ convert_f64 (1/2) = 1/2 := by
  norm_num [convert_u8, convert_u16, convert_u24, convert_u32, convert_s8, convert_s16,
    convert_s24, convert_s32, convert_f32, convert_f64]

/-- **C6**: `get_samples` drains the queue: it returns exactly the buffered
samples in FIFO order (front of the `VecDeque` first), leaves the queue empty
and every other field untouched, and a second call with no intervening decode
returns the empty list; the first result is non-empty iff the queue was. -/
theorem get_samples_drains (st : AudioPlayer) :
    (get_samples st).1 = st.sample_buffer ∧
    (get_samples st).2.sample_buffer = [] ∧
    (get_samples (get_samples st).2).1 = [] ∧
    ((get_samples st).1 ≠ [] ↔ st.sample_buffer ≠ []) ∧
    (get_samples st).2.is_playing = st.is_playing ∧
    (get_samples st).2.current_position = st.current_position ∧
    (get_samples st).2.duration = st.duration ∧
    (get_samples st).2.volume = st.volume := by
  simp [get_samples]

/-- **C9**: when `AudioPlayer::new` succeeds, the player starts paused with
zero position and duration, an empty sample queue (so `get_samples` returns
the empty list), and default volume `0.7`, which is not `1`. -/
theorem new_initial_state (hasDevice hasConfig : Bool) (st : AudioPlayer)
    (h : AudioPlayer.new hasDevice hasConfig = .ok st) :
    st.is_playing = false ∧ st.current_position = 0 ∧ st.duration = 0 ∧
    st.sample_buffer = [] ∧ (get_samples st).1 = [] ∧ st.volume = 7/10 ∧ st.volume ≠ 1 := by
  unfold AudioPlayer.new at h
  split_ifs at h
  have h2 := Except.ok.inj h
  subst h2
  exact ⟨rfl, rfl, rfl, rfl, rfl, rfl, by norm_num⟩

/-- Witness for C9: both `cpal` lookups succeed and the returned player is
`okPlayer`, which is paused at volume `0.7 ≠ 1`. -/
theorem new_initial_state_witness :
    AudioPlayer.new true true = Except.ok okPlayer ∧
    okPlayer.is_playing = false ∧ okPlayer.volume = 7/10 ∧ okPlayer.volume ≠ 1 := by
  have h := new_initial_state true true okPlayer rfl
  exact ⟨rfl, h.1, h.2.2.2.2.2.1, h.2.2.2.2.2.2⟩

/-- **C3**: whenever `load_file` returns an error (unopenable file, probe
failure, no non-null-codec track, decoder init failure, resampler
construction failure), the player state is exactly the state before the call
— queue, play flag, position, duration and volume included — and no decode
thread is spawned.  All five error exits precede the duration write and the
`thread::spawn`. -/
theorem load_file_error_state_untouched (env : LoadEnv) (st : AudioPlayer)
    (h : (load_file env st).err.isSome) :
    (load_file env st).state = st ∧ (load_file env st).spawned = none :=
  (load_file_cases env st).1 h

/-- Witness for C3: loading with an unopenable file errors out and leaves the
freshly constructed player untouched. -/
theorem load_file_error_state_untouched_witness :
    (load_file badEnv okPlayer).err.isSome = true ∧
    (load_file badEnv okPlayer).state = okPlayer ∧
    (load_file badEnv okPlayer).spawned = none := by
  have h := load_file_error_state_untouched badEnv okPlayer (by rfl)
  exact ⟨rfl, h.1, h.2⟩

/-- **C2** (counterexample): `set_volume` does *not* affect samples decoded
after the call by an already-running load, because `load_file` captures
`self.volume` by value into the decode closure.  Concretely: a fresh player
(volume `0.7`) loads a file — the spawned thread captures `0.7`; then
`set_volume (1/2)` stores `1/2`; a block `[1]` decoded *after* that call is
still scaled to `[7/10]`, not to `[clamp (1/2) * 1] = [1/2]` as the claim
requires. -/
theorem set_volume_stale_capture_cex :
    AudioPlayer.new true true = Except.ok okPlayer ∧
    (load_file goodEnv okPlayer).spawned = some ⟨7/10⟩ ∧
    (set_volume okPlayer (1/2)).volume = 1/2 ∧
    process_block ⟨7/10⟩ [1] = [7/10] ∧
    rustClamp (1/2) 0 1 * 1 = 1/2 ∧
    (7/10 : ℚ) ≠ rustClamp (1/2) 0 1 * 1 := by
  refine ⟨rfl, rfl, ?_, ?_, ?_, ?_⟩
  · show rustClamp (1/2) 0 1 = 1/2
    rw [rustClamp]
    norm_num
  · show [(1 : ℚ) * (7/10)] = [7/10]
    norm_num
  · rw [rustClamp]
    norm_num
  · rw [rustClamp]
    norm_num

/-- **C2** (amended): `set_volume v` stores `clamp v 0 1` (so `-1` behaves as
`0` and `2` as `1`) and touches no other field; the stored volume is read
once per load: a decode thread spawned by a `load_file` that runs *after* the
`set_volume` call captures `clamp v 0 1` and multiplies every sample it
processes by it, while a thread spawned *before* the call keeps multiplying
by the volume current at its own load time. -/
theorem set_volume_semantics (st : AudioPlayer) (v : ℚ) (env : LoadEnv) (th : DecodeThread) :
    (set_volume st v).volume = rustClamp v 0 1 ∧
    (0 ≤ rustClamp v 0 1 ∧ rustClamp v 0 1 ≤ 1) ∧
    rustClamp (-1 : ℚ) 0 1 = 0 ∧ rustClamp (2 : ℚ) 0 1 = 1 ∧
    (set_volume st v).sample_buffer = st.sample_buffer ∧
    (set_volume st v).is_playing = st.is_playing ∧
    (set_volume st v).current_position = st.current_position ∧
    (set_volume st v).duration = st.duration ∧
    ((load_file env (set_volume st v)).spawned = some th →
      th.captured_volume = rustClamp v 0 1 ∧
      process_block th = fun block => block.map (fun s => s * rustClamp v 0 1)) ∧
    ((load_file env st).spawned = some th →
      th.captured_volume = st.volume ∧
      process_block th = fun block => block.map (fun s => s * st.volume)) := by
  have hclamp : ∀ x : ℚ, 0 ≤ rustClamp x 0 1 ∧ rustClamp x 0 1 ≤ 1 := by
    intro x
    rw [rustClamp]
    split_ifs <;> constructor <;> linarith
  refine ⟨rfl, hclamp v, ?_, ?_, rfl, rfl, rfl, rfl, ?_, ?_⟩
  · rw [rustClamp]; norm_num
  · rw [rustClamp]; norm_num
  · intro h
    have hcap := (load_file_cases env (set_volume st v)).2 th h
    have hv : (set_volume st v).volume = rustClamp v 0 1 := rfl
    rw [hv] at hcap
    exact ⟨hcap, funext fun block => by rw [process_block, hcap]⟩
  · intro h
    have hcap := (load_file_cases env st).2 th h
    exact ⟨hcap, funext fun block => by rw [process_block, hcap]⟩

/-- Witness for C2 (amended): after `set_volume (1/2)` on the fresh player, a
subsequent load captures exactly `clamp (1/2) 0 1`. -/
theorem set_volume_semantics_witness :
    (set_volume okPlayer (1/2)).volume = rustClamp (1/2) 0 1 ∧
    (DecodeThread.mk (rustClamp (1/2) 0 1)).captured_volume = rustClamp (1/2) 0 1 := by
  have h := set_volume_semantics okPlayer (1/2) goodEnv ⟨rustClamp (1/2) 0 1⟩
  exact ⟨h.1, (h.2.2.2.2.2.2.2.2.1 rfl).1⟩

/-- **C4**: starting from the fresh analyzer, after any sequence of
`add_samples` calls the ring holds exactly the last `min 2048 total` samples
fed, in arrival order (`lastWindow` drops everything but the final
`fft_size` elements), so it never exceeds 2048 samples and the oldest are
discarded first. -/
theorem add_samples_sliding_window (calls : List (List ℚ)) (t0 : ℚ) :
    (calls.foldl add_samples (Visualizer.new t0)).sample_buffer = lastWindow calls.flatten ∧
    (calls.foldl add_samples (Visualizer.new t0)).sample_buffer.length
      = min fft_size calls.flatten.length ∧
    (calls.foldl add_samples (Visualizer.new t0)).sample_buffer.length ≤ fft_size := by
  have h1 : (calls.foldl add_samples (Visualizer.new t0)).sample_buffer
      = lastWindow calls.flatten := by
    rw [foldl_add_samples_buffer]
    rw [show (Visualizer.new t0).sample_buffer = lastWindow [] from rfl]
    rw [foldl_pushSample_window_calls calls [], List.nil_append]
  refine ⟨h1, ?_, ?_⟩
  · rw [h1, lastWindow, List.length_drop]
    omega
  · rw [h1, lastWindow, List.length_drop]
    omega

/-- **C5**: with fewer than 2048 samples in the ring, `update_spectrum`
returns the state unchanged — bars, beat intensity, hue, beat timestamp and
ring all keep their exact values (the model is a total function, so no error
is possible). -/
theorem update_spectrum_noop_below_window (mags : List ℚ) (e now : ℚ) (st : Visualizer)
    (h : st.sample_buffer.length < fft_size) :
    update_spectrum mags e now st = st := by
  rw [update_spectrum, if_pos h]

/-- Witness for C5: the fresh analyzer has an empty ring, and an update pass
leaves it exactly as it was. -/
theorem update_spectrum_noop_below_window_witness :
    (Visualizer.new 0).sample_buffer.length < fft_size ∧
    update_spectrum [5] 2 3 (Visualizer.new 0) = Visualizer.new 0 := by
  have h : (Visualizer.new 0).sample_buffer.length < fft_size := by
    show ([] : List ℚ).length < fft_size
    rw [List.length_nil, fft_size]
    omega
  exact ⟨h, update_spectrum_noop_below_window [5] 2 3 (Visualizer.new 0) h⟩

/-- **C10** (counterexample to "only the smoothed bars, beat intensity, and
hue evolve"): on a full window whose bass triggers a beat (`4` is the exact
bass energy of `cexMags` after normalization, and a whole second has
elapsed), `update_spectrum` also rewrites `last_beat_time` (from `0` to
`1`), a field the claim's enumeration omits.  The ring itself is
preserved. -/
theorem update_spectrum_timestamp_evolves_cex :
    (update_spectrum cexMags 4 1 fullVis).last_beat_time = 1 ∧
    fullVis.last_beat_time = 0 ∧ (1 : ℚ) ≠ 0 ∧
    (update_spectrum cexMags 4 1 fullVis).sample_buffer = fullVis.sample_buffer ∧
    (4 : ℚ) * 4 = bassSum (normalizeMags cexMags) ∧ (0 : ℚ) ≤ 4 ∧
    fullVis.sample_buffer.length = fft_size := by
  have hpos : ((4:ℚ) > 3/10 ∧
      duration_since 1 (update_frequency_bars (normalizeMags cexMags) fullVis).last_beat_time
        > 1/5) := by
    constructor
    · norm_num
    · rw [show (update_frequency_bars (normalizeMags cexMags) fullVis).last_beat_time = (0:ℚ)
        from rfl, duration_since]
      norm_num [max_def]
  refine ⟨?_, rfl, by norm_num, ?_, by rw [bassSum_cexMags]; norm_num, by norm_num, ?_⟩
  · rw [update_spectrum_full cexMags 4 1 fullVis fullVis_not_short,
      update_rainbow_hue_last_beat_time, (detect_beat_fields 4 1 _).2, if_pos hpos]
  · rw [update_spectrum_full cexMags 4 1 fullVis fullVis_not_short,
      update_rainbow_hue_sample_buffer, detect_beat_sample_buffer,
      update_frequency_bars_sample_buffer]
  · show (List.replicate 2048 (0:ℚ)).length = fft_size
    rw [List.length_replicate, fft_size]

/-- **C10** (amended): `update_spectrum` never consumes its input: for every
ring state the sample ring is identical before and after the call — the
transform reads the window non-destructively — so repeated calls recompute
over the same window; besides the smoothed bars, beat intensity and hue, the
only other field that may evolve is the last-beat timestamp. -/
theorem update_spectrum_preserves_ring (mags : List ℚ) (e now : ℚ) (st : Visualizer) :
    (update_spectrum mags e now st).sample_buffer = st.sample_buffer := by
  by_cases h : st.sample_buffer.length < fft_size
  · rw [update_spectrum, if_pos h]
  · rw [update_spectrum_full mags e now st h, update_rainbow_hue_sample_buffer,
      detect_beat_sample_buffer, update_frequency_bars_sample_buffer]

/-- **C7** (counterexample to "at least 0.2 s"): at exactly `0.2` seconds
since the last beat and bass energy `4 > 0.3` (with `4 * 4` equal to the
normalized bass sum of `cexMags`), the source's strict comparison
`time_since_last_beat > 0.2` fails, so the intensity decays to
`0 * 0.95 = 0` instead of being set to `min (4 - 0.3) 1` as the claim's
non-strict reading requires. -/
theorem beat_boundary_cex :
    (update_spectrum cexMags 4 (1/5) fullVis).beat_intensity = 0 ∧
    (4 : ℚ) > 3/10 ∧
    duration_since (1/5) fullVis.last_beat_time = 1/5 ∧
    (4 : ℚ) * 4 = bassSum (normalizeMags cexMags) ∧ (0 : ℚ) ≤ 4 ∧
    fullVis.sample_buffer.length = fft_size ∧ cexMags.length = 1024 ∧
    (0 : ℚ) ≠ min ((4 : ℚ) - 3/10) 1 := by
  have hnc : ¬ ((4:ℚ) > 3/10 ∧
      duration_since (1/5) (update_frequency_bars (normalizeMags cexMags) fullVis).last_beat_time
        > 1/5) := by
    intro hcc
    have h2 := hcc.2
    rw [show (update_frequency_bars (normalizeMags cexMags) fullVis).last_beat_time = (0:ℚ)
      from rfl, duration_since] at h2
    norm_num [max_def] at h2
  refine ⟨?_, by norm_num, ?_, by rw [bassSum_cexMags]; norm_num, by norm_num, ?_,
    cexMags_length, by norm_num⟩
  · rw [update_spectrum_full cexMags 4 (1/5) fullVis fullVis_not_short,
      update_rainbow_hue_beat_intensity, (detect_beat_fields 4 (1/5) _).1, if_neg hnc]
    show (0:ℚ) * (95/100) = 0
    norm_num
  · show duration_since (1/5) (0:ℚ) = 1/5
    rw [duration_since]
    norm_num [max_def]
  · show (List.replicate 2048 (0:ℚ)).length = fft_size
    rw [List.length_replicate, fft_size]

/-- **C7** (amended): on a full-window pass, with `e` the exact nonnegative
square root of the bass sum (sum of the normalized magnitudes over the
lowest eighth — the first 128 — of the 1024 bins): if the bass energy
exceeds `0.3` (equivalently the bass sum exceeds `0.09`) and *strictly more
than* `0.2` s have elapsed since the last beat, the intensity becomes
`min (e - 0.3) 1` (hence `≤ 1`) and the timer resets to `now`; otherwise the
intensity is multiplied by exactly `0.95` (staying in `[0, intensity]` when
the old value was nonnegative, and `≤ 1` when it was `≤ 1`) and the timer is
unchanged. -/
theorem update_spectrum_beat_rule (mags : List ℚ) (e now : ℚ) (st : Visualizer)
    (hfull : fft_size ≤ st.sample_buffer.length) (hlen : mags.length = 1024)
    (he : e * e = bassSum (normalizeMags mags)) (he0 : 0 ≤ e) :
    bassSum (normalizeMags mags) = ((normalizeMags mags).take 128).sum ∧
    (bassSum (normalizeMags mags) > 9/100 ∧ duration_since now st.last_beat_time > 1/5 →
      (update_spectrum mags e now st).beat_intensity = min (e - 3/10) 1 ∧
      (update_spectrum mags e now st).last_beat_time = now ∧
      (update_spectrum mags e now st).beat_intensity ≤ 1) ∧
    (¬ (bassSum (normalizeMags mags) > 9/100 ∧ duration_since now st.last_beat_time > 1/5) →
      (update_spectrum mags e now st).beat_intensity = st.beat_intensity * (95/100) ∧
      (update_spectrum mags e now st).last_beat_time = st.last_beat_time ∧
      (0 ≤ st.beat_intensity → 0 ≤ (update_spectrum mags e now st).beat_intensity ∧
        (update_spectrum mags e now st).beat_intensity ≤ st.beat_intensity) ∧
      (st.beat_intensity ≤ 1 → (update_spectrum mags e now st).beat_intensity ≤ 1)) := by
  have hnot : ¬ st.sample_buffer.length < fft_size := by omega
  have hfull2 := update_spectrum_full mags e now st hnot
  have hcond : (e > 3/10) ↔ bassSum (normalizeMags mags) > 9/100 := by
    rw [sqrt_gt_threshold_iff e he0, he]
  have hlast : (update_frequency_bars (normalizeMags mags) st).last_beat_time
      = st.last_beat_time := rfl
  have hbi : (update_frequency_bars (normalizeMags mags) st).beat_intensity
      = st.beat_intensity := rfl
  refine ⟨?_, ?_, ?_⟩
  · rw [bassSum, normalizeMags_length, hlen]
  · intro hc
    have hcc : e > 3/10 ∧ duration_since now st.last_beat_time > 1/5 := ⟨hcond.2 hc.1, hc.2⟩
    rw [hfull2, update_rainbow_hue_beat_intensity, update_rainbow_hue_last_beat_time,
      (detect_beat_fields e now _).1, (detect_beat_fields e now _).2, hlast]
    rw [if_pos hcc, if_pos hcc]
    exact ⟨rfl, rfl, min_le_right _ _⟩
  · intro hc
    have hcc : ¬ (e > 3/10 ∧ duration_since now st.last_beat_time > 1/5) := by
      intro hx
      exact hc ⟨hcond.1 hx.1, hx.2⟩
    rw [hfull2, update_rainbow_hue_beat_intensity, update_rainbow_hue_last_beat_time,
      (detect_beat_fields e now _).1, (detect_beat_fields e now _).2, hlast, hbi]
    rw [if_neg hcc, if_neg hcc]
    refine ⟨rfl, rfl, fun h0 => ⟨by nlinarith, by nlinarith⟩, fun h1 => by nlinarith⟩

/-- Witness for C7 (amended): on `cexMags` with exact bass energy `4`, a full
second after the last beat, the trigger branch fires: the intensity becomes
`min (4 - 0.3) 1` and the timer resets to `1`. -/
theorem update_spectrum_beat_rule_witness :
    (update_spectrum cexMags 4 1 fullVis).beat_intensity = min ((4:ℚ) - 3/10) 1 ∧
    (update_spectrum cexMags 4 1 fullVis).last_beat_time = 1 := by
  have hfull : fft_size ≤ fullVis.sample_buffer.length := by
    have := fullVis_not_short
    omega
  have h := update_spectrum_beat_rule cexMags 4 1 fullVis hfull cexMags_length
    (by rw [bassSum_cexMags]; norm_num) (by norm_num)
  have hc : bassSum (normalizeMags cexMags) > 9/100 ∧
      duration_since 1 fullVis.last_beat_time > 1/5 := by
    constructor
    · rw [bassSum_cexMags]
      norm_num
    · show duration_since 1 (0:ℚ) > 1/5
      rw [duration_since]
      norm_num [max_def]
  obtain ⟨-, h2, -⟩ := h
  obtain ⟨hb, hl, -⟩ := h2 hc
  exact ⟨hb, hl⟩

/-- **C8**: along any trace of `add_samples` and `update_spectrum` calls from
the fresh analyzer, if every update pass receives nonnegative oracle
magnitudes (as `Complex::norm` guarantees), all 32 spectrum bars and the
beat intensity stay in `[0, 1]`: normalization bounds magnitudes by the
frame maximum, bar smoothing is the convex combination
`0.7 * previous + 0.3 * new`, and the beat branch clamps at `1`. -/
theorem analyzer_outputs_in_range (ops : List VisOp) (t0 : ℚ)
    (h : ∀ op ∈ ops, op.magsNonneg) :
    outputsInRange (ops.foldl VisOp.run (Visualizer.new t0)) := by
  suffices H : ∀ (l : List VisOp) (st : Visualizer), (∀ op ∈ l, op.magsNonneg) →
      outputsInRange st → outputsInRange (l.foldl VisOp.run st) from
    H ops (Visualizer.new t0) h (new_outputsInRange t0)
  intro l
  induction l with
  | nil =>
      intro st _ hst
      exact hst
  | cons op rest ih =>
      intro st hops hst
      rw [List.foldl_cons]
      refine ih (VisOp.run st op) (fun o ho => hops o (List.mem_cons_of_mem op ho)) ?_
      have hop := hops op (List.mem_cons_self op rest)
      cases op with
      | add s => exact add_samples_preserves_range st s hst
      | update mags e now => exact update_spectrum_preserves_range mags e now st hop hst

/-- Witness for C8: a one-update trace with nonnegative magnitudes keeps the
outputs in range. -/
theorem analyzer_outputs_in_range_witness :
    outputsInRange (([VisOp.update [1] 1 1]).foldl VisOp.run (Visualizer.new 0)) := by
  refine analyzer_outputs_in_range [VisOp.update [1] 1 1] 0 ?_
  intro op hop
  rw [List.mem_singleton] at hop
  subst hop
  show ∀ m ∈ [(1:ℚ)], 0 ≤ m
  intro m hm
  rw [List.mem_singleton] at hm
  subst hm
  norm_num

end RustPlayer
